import Mathlib

/-!
Verification of the FinancialAgent extraction pipeline
(`src/tools/general_pdf_parser.py`, `src/schema/models.py`).

Strings are modelled as lists of characters (`Str`), so that Python's
`str.strip`, `str.replace`, `str.split` and `float()` can be embedded as
executable Lean functions and reasoned about by induction.  Decimal float
literals are modelled exactly: a parsed value is a `DecNum` (an integer
numerator with a count of decimal digits) interpreted into `ℚ` by
`DecNum.toRat`, so every parse is kernel-computable while the theorems
speak about rational values.
-/

/-- A Python string, modelled as its list of characters. -/
abbrev Str : Type := List Char

/-- Characters removed by Python `str.strip()` (the common ASCII whitespace). -/
def isSpaceB (c : Char) : Bool :=
  c = ' ' || c = '\t' || c = '\n' || c = '\r' || c = '\x0b' || c = '\x0c'

/-- Python `s.strip()`: drop leading and trailing whitespace. -/
def stripWs (s : Str) : Str :=
  ((s.dropWhile isSpaceB).reverse.dropWhile isSpaceB).reverse

/-- Python `s.replace(str(c), "")`: remove every occurrence of the character `c`. -/
def removeChar (c : Char) (s : Str) : Str :=
  s.filter (fun x => x ≠ c)

/-- Python `s.split(str(d))` for a one-character separator. -/
def splitOnC (d : Char) : Str → List Str
  | [] => [[]]
  | c :: cs =>
    if c = d then [] :: splitOnC d cs
    else
      match splitOnC d cs with
      | [] => [[c]]
      | r :: rs => (c :: r) :: rs

/-- Python `sep.join(parts)`. -/
def joinSep (sep : Str) : List Str → Str
  | [] => []
  | [x] => x
  | x :: xs => x ++ sep ++ joinSep sep xs

/-- An exact decimal number `num / 10 ^ dig`: the shallow model of the
floating-point values produced by Python `float` on financial-report cells. -/
structure DecNum where
  num : Int
  dig : Nat
deriving DecidableEq, Repr

/-- The rational value of a `DecNum`. -/
def DecNum.toRat (d : DecNum) : ℚ :=
  (d.num : ℚ) / (10 : ℚ) ^ d.dig

/-- Value of a string of decimal digits. -/
def digitsVal (s : Str) : Nat :=
  s.foldl (fun n c => n * 10 + (c.toNat - 48)) 0

/-- Parse an unsigned decimal mantissa (`"123"`, `"123.45"`, `".5"`, `"12."`),
as accepted by Python `float()`. -/
def parsePlainD (s : Str) : Option DecNum :=
  match splitOnC '.' s with
  | [a] =>
    if a ≠ [] ∧ a.all Char.isDigit then some ⟨(digitsVal a : Int), 0⟩ else none
  | [a, b] =>
    if (a ≠ [] ∨ b ≠ []) ∧ a.all Char.isDigit ∧ b.all Char.isDigit then
      some ⟨(digitsVal (a ++ b) : Int), b.length⟩
    else none
  | _ => none

/-- Parse an optionally signed decimal mantissa. -/
def parseSignedD : Str → Option DecNum
  | '+' :: r => parsePlainD r
  | '-' :: r => (parsePlainD r).map (fun d => ⟨-d.num, d.dig⟩)
  | s => parsePlainD s

/-- Parse an optionally signed integer exponent. -/
def parseExpInt : Str → Option Int
  | '+' :: r => if r ≠ [] ∧ r.all Char.isDigit then some (digitsVal r : Int) else none
  | '-' :: r => if r ≠ [] ∧ r.all Char.isDigit then some (-(digitsVal r : Int)) else none
  | s => if s ≠ [] ∧ s.all Char.isDigit then some (digitsVal s : Int) else none

/-- Scale a decimal mantissa by `10 ^ e`. -/
def applyExp (d : DecNum) (e : Int) : DecNum :=
  if 0 ≤ e then ⟨d.num * (10 : Int) ^ e.toNat, d.dig⟩
  else ⟨d.num, d.dig + (-e).toNat⟩

/-- Python `float(s)` on decimal literals, producing the exact decimal:
strips surrounding whitespace, accepts an optional sign, decimal point and
exponent; yields `none` where `float` raises `ValueError`. -/
def pyFloatD (s : Str) : Option DecNum :=
  match splitOnC 'e' ((stripWs s).map (fun c => if c = 'E' then 'e' else c)) with
  | [m] => parseSignedD m
  | [m, ex] =>
    match parseSignedD m, parseExpInt ex with
    | some d, some e => some (applyExp d e)
    | _, _ => none
  | _ => none

/-- Python `float(s)` as a rational value. -/
def pyFloat (s : Str) : Option ℚ :=
  (pyFloatD s).map DecNum.toRat

/-- The cleaning step of `_parse_numeric_value`:
`cell.replace(",", "").replace("%", "").strip()`. -/
def pyClean (cell : Str) : Str :=
  stripWs (removeChar '%' (removeChar ',' cell))

/-- The per-cell attempt inside `_parse_numeric_value`: clean the cell, treat
a fully parenthesized value as an accounting negative, otherwise parse
directly; a `ValueError` from `float` becomes `none` (the `except` branch
`continue`s). -/
def parseCell (cell : Str) : Option ℚ :=
  if (pyClean cell).head? = some '(' ∧ (pyClean cell).getLast? = some ')' then
    (pyFloat (((pyClean cell).drop 1).dropLast)).map (fun q => -q)
  else
    pyFloat (pyClean cell)

/-- Embedding of `PDFParser._parse_numeric_value`: first cell that parses wins, `None`
when no cell parses. -/
def parse_numeric_value : List Str → Option ℚ
  | [] => none
  | c :: cs =>
    match parseCell c with
    | some v => some v
    | none => parse_numeric_value cs

/-- The per-cell cleaning of `_convert_to_md_table`:
`str(cell).replace("\n", " ")` (cells are already strings here). -/
def collapseNl (s : Str) : Str :=
  s.map (fun c => if c = '\n' then ' ' else c)

/-- One rendered table row: `"| " + " | ".join(clean_row) + " |"`. -/
def rowLine (row : List Str) : Str :=
  "| ".data ++ joinSep " | ".data (row.map collapseNl) ++ " |".data

/-- The header-separator row: `"| " + " | ".join(["---"] * len(row)) + " |"`. -/
def sepRowLine (n : Nat) : Str :=
  "| ".data ++ joinSep " | ".data (List.replicate n "---".data) ++ " |".data

/-- Embedding of `PDFParser._convert_to_md_table`: empty grid renders to the empty string;
otherwise each row becomes one `"\n"`-terminated line and the first row is
followed by the separator row. -/
def convert_to_md_table : List (List Str) → Str
  | [] => []
  | r :: rs =>
    (rowLine r ++ ['\n']) ++ (sepRowLine r.length ++ ['\n']) ++
      (rs.map (fun row => rowLine row ++ ['\n'])).flatten

/-- The cell split used on rendered lines (`map_tables_to_schema`, line 146):
`[c.strip() for c in line.split("|") if c.strip()]`. -/
def splitCells (line : Str) : List Str :=
  ((splitOnC '|' line).map stripWs).filter (fun c => c ≠ [])

/-- Boolean prefix test on character lists. -/
def startsWithB : Str → Str → Bool
  | [], _ => true
  | _ :: _, [] => false
  | n :: ns, h :: hs => n = h && startsWithB ns hs

/-- Python's substring test `needle in hay`. -/
def isSubstrB (needle : Str) : Str → Bool
  | [] => needle.isEmpty
  | h :: hs => startsWithB needle (h :: hs) || isSubstrB needle hs

/-- The five metric fields of `FinancialExtractionSchema` (`models.py`). -/
inductive SchemaField where
  | operating_revenue
  | net_profit
  | gross_margin
  | profit_margin
  | roe
deriving DecidableEq, Repr

/-- A located metric candidate, the shape of the dict built at lines 151-156
of `general_pdf_parser.py` and of the Pydantic `MetricItem`. -/
structure MetricItem where
  value : ℚ
  unit : Str
  context : Str
  page : Int
deriving DecidableEq, Repr

/-- One extracted table file, as scanned by `map_tables_to_schema`: its page
number (decoded from the `page{N}_{K}.md` stem) and its lines. -/
structure TableFile where
  page : Int
  lines : List Str

/-- The `mapping_config` dict of `map_tables_to_schema`, in insertion order. -/
def mapping_config : List (Str × SchemaField) :=
  [("营业收入".data, .operating_revenue),
   ("归属于上市公司股东的净利润".data, .net_profit),
   ("净利润".data, .net_profit),
   ("毛利率".data, .gross_margin),
   ("净利润率".data, .profit_margin),
   ("净资产收益率".data, .roe)]

/-- The metric entries of the `extracted_data` dict (the four header keys
`company_name`/`stock_code`/`report_year`/`report_period` are disjoint from
the schema keys, so `schema_key not in extracted_data` is per-field absence). -/
structure Candidates where
  operating_revenue : Option MetricItem
  net_profit : Option MetricItem
  gross_margin : Option MetricItem
  profit_margin : Option MetricItem
  roe : Option MetricItem
deriving DecidableEq, Repr

/-- The state of `extracted_data` before any table file is scanned. -/
def emptyCandidates : Candidates :=
  ⟨none, none, none, none, none⟩

/-- Dict lookup `extracted_data.get(schema_key)`. -/
def getF (c : Candidates) : SchemaField → Option MetricItem
  | .operating_revenue => c.operating_revenue
  | .net_profit => c.net_profit
  | .gross_margin => c.gross_margin
  | .profit_margin => c.profit_margin
  | .roe => c.roe

/-- Dict store `extracted_data[schema_key] = v`. -/
def setF (c : Candidates) : SchemaField → MetricItem → Candidates
  | .operating_revenue, v => { c with operating_revenue := some v }
  | .net_profit, v => { c with net_profit := some v }
  | .gross_margin, v => { c with gross_margin := some v }
  | .profit_margin, v => { c with profit_margin := some v }
  | .roe, v => { c with roe := some v }

/-- The unit convention of line 153:
`"%" if "率" in keyword or "ROE" in keyword else "元"`. -/
def inferUnit (kw : Str) : Str :=
  if isSubstrB "率".data kw || isSubstrB "ROE".data kw then "%".data else "元".data

/-- The body of the innermost loop of `map_tables_to_schema` (lines 143-156),
for one `(keyword, schema_key)` entry on one line. -/
def locStep (page : Int) (line : Str) (a : Candidates) (kv : Str × SchemaField) :
    Candidates :=
  if isSubstrB kv.1 line = true ∧ getF a kv.2 = none then
    match parse_numeric_value (splitCells line) with
    | some v => setF a kv.2 ⟨v, inferUnit kv.1, stripWs line, page⟩
    | none => a
  else a

/-- Processing of one table line against every mapping entry, in declaration
order. -/
def procLine (page : Int) (line : Str) (acc : Candidates) : Candidates :=
  mapping_config.foldl (locStep page line) acc

/-- Processing of one table file, line by line. -/
def scanFile (acc : Candidates) (tf : TableFile) : Candidates :=
  tf.lines.foldl (fun a l => procLine tf.page l a) acc

/-- The metric-locating scan of `map_tables_to_schema` over the sorted table
files. -/
def locateMetrics (files : List TableFile) : Candidates :=
  files.foldl scanFile emptyCandidates

/-- The unit each schema field's candidates carry, given which keywords map
to it (every keyword mapping to a margin/roe field contains "率"). -/
def expectedUnit : SchemaField → Str
  | .operating_revenue => "元".data
  | .net_profit => "元".data
  | .gross_margin => "%".data
  | .profit_margin => "%".data
  | .roe => "%".data

/-- The `ReportPeriod` enum of `models.py`. -/
inductive ReportPeriod where
  | Q1
  | H1
  | Q3
  | FY
deriving DecidableEq, Repr

/-- A dynamically typed Python value, as supplied for a metric dict's
`value` entry (the parser supplies floats; an LLM may supply strings). -/
inductive PyVal where
  | float (q : ℚ)
  | int (n : Int)
  | str (s : Str)
deriving DecidableEq, Repr

/-- The pre-validation shape of one metric dict handed to the schema. -/
structure MetricInput where
  value : PyVal
  unit : Str
  context : Str
  page : Int
deriving DecidableEq, Repr

/-- Pydantic's lax coercion of a supplied value into `float`. -/
def coerceFloat : PyVal → Option ℚ
  | .float q => some q
  | .int n => some (n : ℚ)
  | .str s => pyFloat s

/-- Embedding of `FinancialExtractionSchema.handle_percentage_strings` (`models.py`,
lines 95-110): for a dict whose `value` is a percent-marked string, strip
the marker, parse as float and force the unit to `"%"`; on a parse failure
(`ValueError`) leave the dict untouched. -/
def handle_percentage_strings (m : MetricInput) : MetricInput :=
  match m.value with
  | .str s =>
    if '%' ∈ s then
      match pyFloat (removeChar '%' s) with
      | some q => { m with value := .float q, unit := "%".data }
      | none => m
    else m
  | _ => m

/-- The pre-validation candidate record handed to
`FinancialExtractionSchema(**extracted_data)` (extra keys such as
`stock_code` are ignored by the model). -/
structure ExtractionInput where
  company_name : Str
  stock_code : Str
  report_year : Int
  report_period : ReportPeriod
  operating_revenue : Option MetricInput
  net_profit : Option MetricInput
  gross_margin : Option MetricInput
  profit_margin : Option MetricInput
  roe : Option MetricInput

/-- Metric-field lookup on the candidate record. -/
def fieldInput (i : ExtractionInput) : SchemaField → Option MetricInput
  | .operating_revenue => i.operating_revenue
  | .net_profit => i.net_profit
  | .gross_margin => i.gross_margin
  | .profit_margin => i.profit_margin
  | .roe => i.roe

/-- The fields carrying the `mode='before'` percentage validator
(`@field_validator('gross_margin', 'profit_margin', 'roe', mode='before')`). -/
def pctNormalized : SchemaField → Bool
  | .gross_margin => true
  | .profit_margin => true
  | .roe => true
  | _ => false

/-- The kind of per-field error Pydantic reports. -/
inductive ErrKind where
  | missing
  | invalid
deriving DecidableEq, Repr

/-- The `mode='before'` pass: the percentage pre-validator runs on its three
fields, other fields are passed through untouched. -/
def normalizeFor (f : SchemaField) (m : MetricInput) : MetricInput :=
  if pctNormalized f then handle_percentage_strings m else m

/-- Validation of one supplied metric field: the percentage pre-validator
runs first (on its three fields only), then type coercion of the value. -/
def validateMetric (f : SchemaField) (m : MetricInput) : Except ErrKind MetricItem :=
  match coerceFloat (normalizeFor f m).value with
  | some q =>
    .ok ⟨q, (normalizeFor f m).unit, (normalizeFor f m).context, (normalizeFor f m).page⟩
  | none => .error .invalid

/-- The five required metric fields, in declaration order. -/
def allFields : List SchemaField :=
  [.operating_revenue, .net_profit, .gross_margin, .profit_margin, .roe]

/-- The error Pydantic records for one metric field: `missing` when the
field is absent, `invalid` when coercion fails, nothing when it validates. -/
def metricFieldError (i : ExtractionInput) (f : SchemaField) :
    Option (SchemaField × ErrKind) :=
  match fieldInput i f with
  | none => some (f, .missing)
  | some m =>
    match validateMetric f m with
    | .error k => some (f, k)
    | .ok _ => none

/-- The per-field error list a failed construction carries. -/
def fieldErrors (i : ExtractionInput) : List (SchemaField × ErrKind) :=
  allFields.filterMap (metricFieldError i)

/-- The validated `FinancialExtractionSchema` record of `models.py`. -/
structure FinancialExtractionSchema where
  company_name : Str
  report_year : Int
  report_period : ReportPeriod
  operating_revenue : MetricItem
  net_profit : MetricItem
  gross_margin : MetricItem
  profit_margin : MetricItem
  roe : MetricItem

/-- The validated value of one metric field, when it has one. -/
def validateField (i : ExtractionInput) (f : SchemaField) : Option MetricItem :=
  (fieldInput i f).bind (fun m => (validateMetric f m).toOption)

/-- Construction `FinancialExtractionSchema(**extracted_data)`: succeeds with
the validated record, or fails with the per-field error list (Pydantic's
`ValidationError` carrying each missing/invalid field name). -/
def FinancialExtractionSchema_validate (i : ExtractionInput) :
    Except (List (SchemaField × ErrKind)) FinancialExtractionSchema :=
  match fieldErrors i with
  | [] =>
    match validateField i .operating_revenue, validateField i .net_profit,
      validateField i .gross_margin, validateField i .profit_margin,
      validateField i .roe with
    | some a, some b, some c, some d, some e =>
      .ok ⟨i.company_name, i.report_year, i.report_period, a, b, c, d, e⟩
    | _, _, _, _, _ => .error []
  | es => .error es

/-- A Python runtime error, as raised by the embedded functions. -/
inductive PyErr where
  | nameError (n : Str)
  | extractError (msg : Str)
deriving DecidableEq, Repr

/-- One embedded raster image as `doc.extract_image` returns it. -/
structure ImageData where
  bytes : Str
  ext : Str
deriving DecidableEq, Repr

/-- The output filename `page{N}_{K}.{ext}` of `_extract_images`. -/
def imgFileName (pageIdx imgIdx : Nat) (ext : Str) : Str :=
  "page".data ++ (Nat.repr (pageIdx + 1)).data ++ "_".data ++
    (Nat.repr (imgIdx + 1)).data ++ ".".data ++ ext

/-- The inner loop of `_extract_images` over one page's image list: each
`doc.extract_image(xref)` either yields image data or raises; a raise
propagates immediately (there is no `try`/`except` in `_extract_images`). -/
def extractImagesOnPage (pageIdx : Nat) :
    Nat → List (Except PyErr ImageData) → Except PyErr (List Str)
  | _, [] => .ok []
  | imgIdx, e :: rest =>
    match e with
    | .error err => .error err
    | .ok img =>
      (extractImagesOnPage pageIdx (imgIdx + 1) rest).map
        (fun fs => imgFileName pageIdx imgIdx img.ext :: fs)

/-- Embedding of `PDFParser._extract_images` over the document's pages; an exception on
any page propagates and the remaining pages are not processed. -/
def extract_images :
    Nat → List (List (Except PyErr ImageData)) → Except PyErr (List Str)
  | _, [] => .ok []
  | pageIdx, p :: ps =>
    match extractImagesOnPage pageIdx 0 p with
    | .error e => .error e
    | .ok fs => (extract_images (pageIdx + 1) ps).map (fun rest => fs ++ rest)

/-- An opened PDF document: per-page text and per-page image-extraction
outcomes. -/
structure PdfDoc where
  pageTexts : List Str
  pageImages : List (List (Except PyErr ImageData))

/-- Embedding of `_extract_text_to_md`: the page texts joined by blank lines. -/
def extract_text_to_md (doc : PdfDoc) : Str :=
  joinSep "\n\n".data doc.pageTexts

/-- Embedding of `PDFParser.process_pdf`: text, then images, then tables; it installs no
handler, so an image-extraction exception aborts the whole run. -/
def process_pdf (doc : PdfDoc) (tables : List (List (List Str))) :
    Except PyErr (Str × List Str × List Str) :=
  match extract_images 0 doc.pageImages with
  | .error e => .error e
  | .ok imgs => .ok (extract_text_to_md doc, imgs, tables.map convert_to_md_table)

/-- The names bound at module level in `general_pdf_parser.py` (its imports
and the class it defines). -/
def moduleGlobals : List Str :=
  ["FinancialExtractionSchema", "logger", "os", "fitz", "pdfplumber",
    "pathlib", "Optional", "List", "PDFParser"].map String.data

/-- The Python builtins the module's code refers to. -/
def pyBuiltins : List Str :=
  ["sorted", "open", "int", "float", "str", "len", "enumerate", "range",
    "isinstance", "Exception", "ValueError", "print", "list", "dict"].map String.data

/-- Python name resolution for this module: a global or a builtin; an
unresolvable name raises `NameError` at evaluation time. -/
def resolvesName (n : Str) : Bool :=
  moduleGlobals.contains n || pyBuiltins.contains n

/-- Embedding of `pathlib.Path(p).stem`: the final path component without its suffix
(a dot strictly inside the name splits off a suffix). -/
def pathStem (p : Str) : Str :=
  match ((splitOnC '/' p).getLastD []).reverse.findIdx? (fun c => c = '.') with
  | some j =>
    if 0 < ((splitOnC '/' p).getLastD []).length - 1 - j ∧
        ((splitOnC '/' p).getLastD []).length - 1 - j <
          ((splitOnC '/' p).getLastD []).length - 1 then
      ((splitOnC '/' p).getLastD []).take (((splitOnC '/' p).getLastD []).length - 1 - j)
    else (splitOnC '/' p).getLastD []
  | none => (splitOnC '/' p).getLastD []

/-- The company-name heuristic `pdf_name.split('_')[0]`. -/
def company_of (pdf_name : Str) : Str :=
  (splitOnC '_' pdf_name).headD []

/-- A located candidate dict viewed as schema input. -/
def toMetricInput (m : MetricItem) : MetricInput :=
  ⟨.float m.value, m.unit, m.context, m.page⟩

/-- The `extracted_data` record `map_tables_to_schema` would hand to the
schema, after locating metrics. -/
def buildInput (pdf_name : Str) (tableFiles : List TableFile) : ExtractionInput :=
  ⟨company_of pdf_name, "000000".data, 2024, .FY,
    (locateMetrics tableFiles).operating_revenue.map toMetricInput,
    (locateMetrics tableFiles).net_profit.map toMetricInput,
    (locateMetrics tableFiles).gross_margin.map toMetricInput,
    (locateMetrics tableFiles).profit_margin.map toMetricInput,
    (locateMetrics tableFiles).roe.map toMetricInput⟩

/-- Rendering of a rational for the interface model of serialization. -/
def ratStr (q : ℚ) : Str :=
  (toString q.num).data ++ "/".data ++ (toString q.den).data

/-- Interface model of serializing one metric item. -/
def metricStr (m : MetricItem) : Str :=
  ratStr m.value ++ ",".data ++ m.unit ++ ",".data ++ m.context ++ ",".data ++
    (toString m.page).data

/-- The string value of the period enum (it subclasses `str`). -/
def periodStr : ReportPeriod → Str
  | .Q1 => "Q1".data
  | .H1 => "H1".data
  | .Q3 => "Q3".data
  | .FY => "FY".data

/-- Interface model of Pydantic's `model_dump_json` on the validated record. -/
def model_dump_json (v : FinancialExtractionSchema) : Str :=
  v.company_name ++ ";".data ++ (toString v.report_year).data ++ ";".data ++
    periodStr v.report_period ++ ";".data ++ metricStr v.operating_revenue ++
    ";".data ++ metricStr v.net_profit ++ ";".data ++ metricStr v.gross_margin ++
    ";".data ++ metricStr v.profit_margin ++ ";".data ++ metricStr v.roe

/-- Interface model of serializing one optional candidate in the fallback. -/
def optMetricStr : Option MetricItem → Str
  | none => "null".data
  | some m => metricStr m

/-- Interface model of `json.dumps(extracted_data)` in the fallback branch. -/
def json_dumps_raw (company stock : Str) (year : Int) (c : Candidates) : Str :=
  company ++ ";".data ++ stock ++ ";".data ++ (toString year).data ++ ";".data ++
    "FY".data ++ ";".data ++ optMetricStr c.operating_revenue ++ ";".data ++
    optMetricStr c.net_profit ++ ";".data ++ optMetricStr c.gross_margin ++
    ";".data ++ optMetricStr c.profit_margin ++ ";".data ++ optMetricStr c.roe

/-- Embedding of `PDFParser.map_tables_to_schema`: building `extracted_data` evaluates the
name `ReportPeriod` (line 124) before any table file is scanned; were that
name resolvable, the function would scan the tables, validate, and on
validation failure evaluate the name `json` (line 165). -/
def map_tables_to_schema (pdf_path : Str) (tableFiles : List TableFile) :
    Except PyErr Str :=
  if resolvesName "ReportPeriod".data = true then
    match FinancialExtractionSchema_validate (buildInput (pathStem pdf_path) tableFiles) with
    | .ok v => .ok (model_dump_json v)
    | .error _ =>
      if resolvesName "json".data = true then
        .ok (json_dumps_raw (company_of (pathStem pdf_path)) "000000".data 2024
          (locateMetrics tableFiles))
      else .error (.nameError "json".data)
  else .error (.nameError "ReportPeriod".data)

/-! Helper lemmas about the character-level string operations. -/

theorem not_mem_collapseNl (s : Str) : '\n' ∉ collapseNl s := by
  intro h
  rcases List.mem_map.mp h with ⟨c, _, hc⟩
  by_cases hcn : c = '\n' <;> simp [hcn] at hc

theorem not_mem_joinSep {d : Char} {sep : Str} {parts : List Str}
    (hs : d ∉ sep) (hp : ∀ p ∈ parts, d ∉ p) : d ∉ joinSep sep parts := by
  induction parts with
  | nil => simp [joinSep]
  | cons x xs ih =>
    cases xs with
    | nil => exact fun h => hp x (by simp) h
    | cons y ys =>
      intro h
      have hunf : joinSep sep (x :: y :: ys) = x ++ sep ++ joinSep sep (y :: ys) := rfl
      rw [hunf] at h
      rcases List.mem_append.mp h with h | h
      · rcases List.mem_append.mp h with h | h
        · exact hp x (by simp) h
        · exact hs h
      · exact ih (fun p hmem => hp p (List.mem_cons_of_mem _ hmem)) h

theorem not_mem_rowLine (row : List Str) : '\n' ∉ rowLine row := by
  intro h
  rw [rowLine] at h
  rcases List.mem_append.mp h with h | h
  · rcases List.mem_append.mp h with h | h
    · simp at h
    · refine not_mem_joinSep (by decide) ?_ h
      intro p hp
      rcases List.mem_map.mp hp with ⟨c, _, hc⟩
      exact hc ▸ not_mem_collapseNl c
  · simp at h

theorem not_mem_sepRowLine (n : Nat) : '\n' ∉ sepRowLine n := by
  intro h
  rw [sepRowLine] at h
  rcases List.mem_append.mp h with h | h
  · rcases List.mem_append.mp h with h | h
    · simp at h
    · refine not_mem_joinSep (by decide) ?_ h
      intro p hp
      rw [List.eq_of_mem_replicate hp]
      decide
  · simp at h

theorem splitOnC_ne_nil (d : Char) (s : Str) : splitOnC d s ≠ [] := by
  cases s with
  | nil => simp [splitOnC]
  | cons c cs =>
    rw [splitOnC]
    by_cases h : c = d
    · simp [h]
    · rw [if_neg h]
      cases splitOnC d cs <;> simp

theorem splitOnC_of_not_mem (d : Char) (s : Str) (h : d ∉ s) :
    splitOnC d s = [s] := by
  induction s with
  | nil => rfl
  | cons c cs ih =>
    have hcd : c ≠ d := by
      intro hc; subst hc; exact h (List.mem_cons_self c cs)
    rw [splitOnC, if_neg hcd]
    rw [ih (fun hc => h (List.mem_cons_of_mem _ hc))]

theorem splitOnC_append_sep (d : Char) (xs ys : Str) (h : d ∉ xs) :
    splitOnC d (xs ++ d :: ys) = xs :: splitOnC d ys := by
  induction xs with
  | nil => simp [splitOnC]
  | cons c cs ih =>
    have hc : c ≠ d := by
      intro hc; subst hc; exact h (List.mem_cons_self c cs)
    rw [List.cons_append, splitOnC, if_neg hc,
      ih (fun hm => h (List.mem_cons_of_mem _ hm))]

theorem splitOnC_join_rows (rs : List (List Str)) :
    splitOnC '\n' ((rs.map (fun row => rowLine row ++ ['\n'])).flatten) =
      rs.map rowLine ++ [[]] := by
  induction rs with
  | nil => rfl
  | cons r rest ih =>
    rw [List.map_cons, List.flatten_cons]
    have hsh : (rowLine r ++ ['\n']) ++ (rest.map (fun row => rowLine row ++ ['\n'])).flatten =
        rowLine r ++ '\n' :: (rest.map (fun row => rowLine row ++ ['\n'])).flatten := by
      rw [List.append_assoc]; rfl
    rw [hsh, splitOnC_append_sep _ _ _ (not_mem_rowLine r), ih, List.map_cons,
      List.cons_append]

theorem stripWs_cons_space (y : Str) : stripWs (' ' :: y) = stripWs y := by
  have h : (' ' :: y).dropWhile isSpaceB = y.dropWhile isSpaceB := by
    rw [List.dropWhile_cons]
    simp [isSpaceB]
  rw [stripWs, stripWs, h]

theorem stripWs_append_space (x : Str) : stripWs (x ++ [' ']) = stripWs x := by
  rcases h : x.dropWhile isSpaceB with _ | ⟨a, as⟩
  · rw [stripWs, stripWs, List.dropWhile_append, h]
    simp [List.dropWhile, isSpaceB]
  · rw [stripWs, stripWs, List.dropWhile_append, h]
    simp only [List.isEmpty_cons, ite_false, Bool.false_eq_true]
    rw [List.reverse_append]
    simp [List.dropWhile_cons, isSpaceB]

theorem stripWs_pad (x : Str) : stripWs (' ' :: (x ++ [' '])) = stripWs x := by
  rw [stripWs_cons_space, stripWs_append_space]

theorem splitOnC_mid (cs : List Str) (h : ∀ c ∈ cs, '|' ∉ c) (hne : cs ≠ []) :
    splitOnC '|' (' ' :: (joinSep " | ".data cs ++ [' ', '|'])) =
      cs.map (fun c => ' ' :: (c ++ [' '])) ++ [[]] := by
  induction cs with
  | nil => exact absurd rfl hne
  | cons c cs ih =>
    cases cs with
    | nil =>
      have hshape : ' ' :: (joinSep " | ".data [c] ++ [' ', '|']) =
          (' ' :: (c ++ [' '])) ++ '|' :: [] := by
        simp [joinSep]
      rw [hshape, splitOnC_append_sep]
      · rfl
      · intro hm
        rcases List.mem_cons.mp hm with hm | hm
        · exact absurd hm.symm (by decide)
        · rcases List.mem_append.mp hm with hm | hm
          · exact h c (by simp) hm
          · simp at hm
    | cons d ds =>
      have hunf : joinSep " | ".data (c :: d :: ds) =
          c ++ " | ".data ++ joinSep " | ".data (d :: ds) := rfl
      have hshape : ' ' :: (joinSep " | ".data (c :: d :: ds) ++ [' ', '|']) =
          (' ' :: (c ++ [' '])) ++ '|' :: (' ' :: (joinSep " | ".data (d :: ds) ++ [' ', '|'])) := by
        rw [hunf]
        simp
      rw [hshape, splitOnC_append_sep]
      · rw [ih (fun p hp => h p (List.mem_cons_of_mem _ hp)) (by simp)]
        rfl
      · intro hm
        rcases List.mem_cons.mp hm with hm | hm
        · exact absurd hm.symm (by decide)
        · rcases List.mem_append.mp hm with hm | hm
          · exact h c (by simp) hm
          · simp at hm

theorem filter_ne_nil_sandwich (X : List Str) (hX : ∀ a ∈ X, a ≠ []) :
    (([] :: (X ++ [[]])).filter fun c => c ≠ []) = X := by
  rw [List.filter_cons_of_neg (by simp), List.filter_append,
    List.filter_cons_of_neg (by simp), List.filter_nil, List.append_nil]
  exact List.filter_eq_self.mpr fun a ha => by simpa using hX a ha

/-- C2: a cell that cleans to a parenthesized number is interpreted as an
accounting negative: separators, percent markers and surrounding whitespace
are stripped first, then the parenthesized magnitude is parsed and negated. -/
theorem c2_paren_accounting_negative (s t : Str) (q : ℚ)
    (h1 : pyClean s = '(' :: (t ++ [')'])) (h2 : pyFloat t = some q) :
    parseCell s = some (-q) := by
  unfold parseCell
  rw [h1]
  have hcons : '(' :: (t ++ [')']) = ('(' :: t) ++ [')'] := by simp
  rw [hcons]
  have hhead : (('(' :: t) ++ [')']).head? = some '(' := by simp
  have hlast : (('(' :: t) ++ [')']).getLast? = some ')' := List.getLast?_concat _
  rw [if_pos ⟨hhead, hlast⟩]
  have hdrop : ((('(' :: t) ++ [')']).drop 1).dropLast = t := by
    rw [← hcons]
    simp [List.dropLast_concat]
  rw [hdrop, h2]
  rfl

/-- Witness for C2 at the spec's concrete cells. -/
theorem c2_paren_accounting_negative_witness :
    pyClean ("(1,234.50)".data) = '(' :: ("1234.50".data ++ [')']) ∧
    pyFloat ("1234.50".data) = some (1234.5 : ℚ) ∧
    parseCell ("(1,234.50)".data) = some (-(1234.5 : ℚ)) ∧
    parseCell ("(500.00)".data) = some (-(500 : ℚ)) := by
  have hf : pyFloatD ("1234.50".data) = some ⟨123450, 2⟩ := by decide
  have hf2 : pyFloat ("1234.50".data) = some (1234.5 : ℚ) := by
    rw [pyFloat, hf]
    simp [DecNum.toRat]
    norm_num
  refine ⟨by decide, hf2, ?_, ?_⟩
  · exact c2_paren_accounting_negative ("(1,234.50)".data) ("1234.50".data)
      (1234.5 : ℚ) (by decide) hf2
  · have hg : pyFloatD ("500.00".data) = some ⟨50000, 2⟩ := by decide
    have hg2 : pyFloat ("500.00".data) = some (500 : ℚ) := by
      rw [pyFloat, hg]
      simp [DecNum.toRat]
      norm_num
    exact c2_paren_accounting_negative ("(500.00)".data) ("500.00".data)
      (500 : ℚ) (by decide) hg2

/-- C6: the Numeric Normalizer is total and option-valued: it returns `none`
exactly when no cell in the list parses after cleaning, and any returned
value is the parse of the first successfully normalizing cell. -/
theorem c6_normalizer_total_first_success (cells : List Str) :
    (parse_numeric_value cells = none ↔ ∀ c ∈ cells, parseCell c = none) ∧
    (∀ v : ℚ, parse_numeric_value cells = some v →
      ∃ (k : ℕ) (c : Str), cells[k]? = some c ∧ parseCell c = some v ∧
        ∀ (j : ℕ) (c' : Str), j < k → cells[j]? = some c' → parseCell c' = none) := by
  induction cells with
  | nil =>
    constructor
    · simp [parse_numeric_value]
    · intro v hv
      simp [parse_numeric_value] at hv
  | cons c cs ih =>
    constructor
    · constructor
      · intro h d hd
        unfold parse_numeric_value at h
        cases hc : parseCell c with
        | some v => rw [hc] at h; exact absurd h (by simp)
        | none =>
          rw [hc] at h
          rw [List.mem_cons] at hd
          rcases hd with rfl | hd
          · exact hc
          · exact (ih.1.mp h) d hd
      · intro h
        unfold parse_numeric_value
        have hc := h c (by simp)
        rw [hc]
        exact ih.1.mpr (fun d hd => h d (by simp [hd]))
    · intro v hv
      unfold parse_numeric_value at hv
      cases hc : parseCell c with
      | some w =>
        rw [hc] at hv
        have hw : w = v := by simpa using hv
        exact ⟨0, c, by simp, by rw [hc, hw], by intro j c' hj _; omega⟩
      | none =>
        rw [hc] at hv
        obtain ⟨k, d, hk, hd, hmin⟩ := ih.2 v hv
        refine ⟨k + 1, d, by simpa using hk, hd, ?_⟩
        intro j c' hj hj'
        cases j with
        | zero =>
          simp at hj'
          rw [← hj']; exact hc
        | succ j' =>
          exact hmin j' c' (by omega) (by simpa using hj')

/-- Witness for C6: a concrete row where the second cell is the first to
normalize. -/
theorem c6_normalizer_total_first_success_witness :
    parse_numeric_value ["净利润".data, "(500.00)".data] = some (-(500 : ℚ)) ∧
    (∃ (k : ℕ) (c : Str), (["净利润".data, "(500.00)".data])[k]? = some c ∧
      parseCell c = some (-(500 : ℚ)) ∧
      ∀ (j : ℕ) (c' : Str), j < k → (["净利润".data, "(500.00)".data])[j]? = some c' →
        parseCell c' = none) := by
  have h1 : parseCell ("净利润".data) = none := by decide
  have hg : pyFloatD ("500.00".data) = some ⟨50000, 2⟩ := by decide
  have h2 : parseCell ("(500.00)".data) = some (-(500 : ℚ)) := by
    unfold parseCell
    rw [if_pos ⟨by decide, by decide⟩]
    have harg : (((pyClean ("(500.00)".data)).drop 1).dropLast) = "500.00".data := by decide
    rw [harg, pyFloat, hg]
    simp [DecNum.toRat]
    norm_num
  have hval : parse_numeric_value ["净利润".data, "(500.00)".data] = some (-(500 : ℚ)) := by
    unfold parse_numeric_value
    rw [h1]
    unfold parse_numeric_value
    rw [h2]
  refine ⟨hval, ?_⟩
  exact (c6_normalizer_total_first_success ["净利润".data, "(500.00)".data]).2
    (-(500 : ℚ)) hval

/-- C9: the Table Renderer produces one text line per input row (cells have
their embedded newlines collapsed, so no row spans two lines), with the first
row followed by exactly one separator row holding one `"---"` entry per cell
of row 0; an empty grid renders to the empty string. -/
theorem c9_renderer_line_structure :
    convert_to_md_table [] = [] ∧
    (∀ row : List Str, '\n' ∉ rowLine row) ∧
    (∀ (r : List Str) (rs : List (List Str)),
      splitOnC '\n' (convert_to_md_table (r :: rs)) =
        rowLine r :: sepRowLine r.length :: (rs.map rowLine ++ [[]])) := by
  refine ⟨rfl, not_mem_rowLine, ?_⟩
  intro r rs
  have hshape : convert_to_md_table (r :: rs) =
      rowLine r ++ '\n' ::
        (sepRowLine r.length ++ '\n' :: (rs.map (fun row => rowLine row ++ ['\n'])).flatten) := by
    rw [convert_to_md_table]
    simp
  rw [hshape, splitOnC_append_sep _ _ _ (not_mem_rowLine r),
    splitOnC_append_sep _ _ _ (not_mem_sepRowLine r.length), splitOnC_join_rows]

/-- Witness for C9: a concrete two-row grid, including a cell with an
embedded newline. -/
theorem c9_renderer_line_structure_witness :
    splitOnC '\n' (convert_to_md_table [["净利润".data], ["(500.00)".data]]) =
      rowLine ["净利润".data] :: sepRowLine 1 :: ([["(500.00)".data]].map rowLine ++ [[]]) ∧
    convert_to_md_table [["a\nb".data]] = "| a b |\n| --- |\n".data := by
  refine ⟨?_, by decide⟩
  exact c9_renderer_line_structure.2.2 ["净利润".data] [["(500.00)".data]]

/-- C10 counterexample: the round-trip fails as stated. For the grid whose
single row holds one blank cell (the data model's representation of a blank
cell is the empty string), re-splitting the rendered row line drops the cell
entirely, so the original cell values are not recovered. -/
theorem c10_roundtrip_counterexample :
    splitCells (rowLine [([] : Str)]) ≠ [([] : Str)].map collapseNl := by
  decide

/-- C10 amended: re-splitting a rendered row line on the pipe delimiter and
trimming the delimiter padding recovers the newline-collapsed cell values,
provided every collapsed cell is free of the pipe delimiter, has no leading
or trailing whitespace, and is non-empty (otherwise the strip-and-discard
re-split loses or alters cells). -/
theorem c10_roundtrip_amended (row : List Str)
    (h : ∀ c ∈ row, '|' ∉ collapseNl c ∧ stripWs (collapseNl c) = collapseNl c ∧
      collapseNl c ≠ []) :
    splitCells (rowLine row) = row.map collapseNl := by
  cases row with
  | nil => decide
  | cons r rest =>
    have hcs : ∀ c ∈ (r :: rest).map collapseNl, '|' ∉ c := by
      intro c hc
      rcases List.mem_map.mp hc with ⟨a, ha, rfl⟩
      exact (h a ha).1
    have hshape : rowLine (r :: rest) =
        '|' :: (' ' :: (joinSep " | ".data ((r :: rest).map collapseNl) ++ [' ', '|'])) := by
      rw [rowLine]
      simp
    have hsplit : splitOnC '|' (rowLine (r :: rest)) =
        [] :: (((r :: rest).map collapseNl).map (fun c => ' ' :: (c ++ [' '])) ++ [[]]) := by
      rw [hshape, splitOnC]
      rw [if_pos rfl]
      rw [splitOnC_mid _ hcs (by simp)]
    have hmap : ((r :: rest).map collapseNl).map (stripWs ∘ fun c => ' ' :: (c ++ [' '])) =
        (r :: rest).map collapseNl := by
      refine List.map_congr_left ?_ |>.trans (List.map_id _)
      intro c hc
      rcases List.mem_map.mp hc with ⟨a, ha, rfl⟩
      show stripWs (' ' :: (collapseNl a ++ [' '])) = collapseNl a
      rw [stripWs_pad]
      exact (h a ha).2.1
    have hall : ∀ a ∈ (r :: rest).map collapseNl, a ≠ ([] : Str) := by
      intro a ha
      rcases List.mem_map.mp ha with ⟨b, hb, rfl⟩
      exact (h b hb).2.2
    rw [splitCells, hsplit, List.map_cons, List.map_append, List.map_map, hmap]
    have h0 : stripWs ([] : Str) = ([] : Str) := rfl
    have htail : List.map stripWs [([] : Str)] = [([] : Str)] := rfl
    rw [htail, h0]
    exact filter_ne_nil_sandwich _ hall

/-- Witness for C10's amended theorem at a concrete row. -/
theorem c10_roundtrip_amended_witness :
    splitCells (rowLine ["净利润".data, "(500.00)".data]) =
      ["净利润".data, "(500.00)".data].map collapseNl := by
  exact c10_roundtrip_amended ["净利润".data, "(500.00)".data] (by decide)

/-! Locator lemmas. -/

theorem getF_setF (a : Candidates) (k : SchemaField) (v : MetricItem) (f : SchemaField) :
    getF (setF a k v) f = if f = k then some v else getF a f := by
  cases a
  cases k <;> cases f <;> simp [getF, setF]

theorem foldl_preserves_mem {α : Type} (P : Candidates → Prop)
    (step : Candidates → α → Candidates) :
    ∀ (l : List α), (∀ a x, x ∈ l → P a → P (step a x)) →
      ∀ a, P a → P (l.foldl step a) := by
  intro l
  induction l with
  | nil => intro _ a ha; exact ha
  | cons x xs ih =>
    intro hstep a ha
    rw [List.foldl_cons]
    exact ih (fun b y hy hb => hstep b y (List.mem_cons_of_mem _ hy) hb)
      (step a x) (hstep a x (List.mem_cons_self _ _) ha)

theorem locStep_preserves (page : Int) (line : Str) (a : Candidates)
    (kv : Str × SchemaField) (f : SchemaField) (c : MetricItem)
    (h : getF a f = some c) : getF (locStep page line a kv) f = some c := by
  unfold locStep
  split
  · rename_i hcond
    split
    · rename_i v _
      rw [getF_setF]
      by_cases hf : f = kv.2
      · subst hf
        rw [hcond.2] at h
        exact absurd h (by simp)
      · rw [if_neg hf]; exact h
    · exact h
  · exact h

theorem locStep_no_match (page : Int) (line : Str) (a : Candidates)
    (kv : Str × SchemaField) (h : isSubstrB kv.1 line = false) :
    locStep page line a kv = a := by
  unfold locStep
  rw [if_neg]
  intro hcond
  rw [h] at hcond
  exact absurd hcond.1 (by simp)

theorem procLine_preserves (page : Int) (line : Str) (acc : Candidates)
    (f : SchemaField) (c : MetricItem) (h : getF acc f = some c) :
    getF (procLine page line acc) f = some c := by
  unfold procLine
  exact foldl_preserves_mem (fun a => getF a f = some c) (locStep page line)
    mapping_config (fun a kv _ ha => locStep_preserves page line a kv f c ha) acc h

theorem scanFile_preserves (acc : Candidates) (tf : TableFile)
    (f : SchemaField) (c : MetricItem) (h : getF acc f = some c) :
    getF (scanFile acc tf) f = some c := by
  unfold scanFile
  exact foldl_preserves_mem (fun a => getF a f = some c)
    (fun a l => procLine tf.page l a) tf.lines
    (fun a l _ ha => procLine_preserves tf.page l a f c ha) acc h

/-- C3: first-occurrence-wins. Once a candidate is recorded for a schema
field, no later-scanned line (within the current file or in any later file,
in scan order) ever overwrites it. -/
theorem c3_first_occurrence_wins :
    (∀ (acc : Candidates) (page : Int) (lines : List Str) (f : SchemaField)
      (c : MetricItem), getF acc f = some c →
        getF (lines.foldl (fun a l => procLine page l a) acc) f = some c) ∧
    (∀ (acc : Candidates) (files : List TableFile) (f : SchemaField)
      (c : MetricItem), getF acc f = some c →
        getF (files.foldl scanFile acc) f = some c) := by
  constructor
  · intro acc page lines f c h
    exact foldl_preserves_mem (fun a => getF a f = some c)
      (fun a l => procLine page l a) lines
      (fun a l _ ha => procLine_preserves page l a f c ha) acc h
  · intro acc files f c h
    exact foldl_preserves_mem (fun a => getF a f = some c) scanFile files
      (fun a tf _ ha => scanFile_preserves a tf f c ha) acc h

/-- Witness for C3: a recorded `roe` candidate survives the scan of a later
file whose line also matches the `roe` mapping with a different value. -/
theorem c3_first_occurrence_wins_witness :
    getF (setF emptyCandidates .roe ⟨1, "%".data, [], 1⟩) .roe =
      some ⟨1, "%".data, [], 1⟩ ∧
    getF (List.foldl scanFile (setF emptyCandidates .roe ⟨1, "%".data, [], 1⟩)
        [⟨2, ["净资产收益率 | 99 |".data]⟩]) .roe = some ⟨1, "%".data, [], 1⟩ := by
  refine ⟨rfl, ?_⟩
  exact c3_first_occurrence_wins.2 (setF emptyCandidates .roe ⟨1, "%".data, [], 1⟩)
    [⟨2, ["净资产收益率 | 99 |".data]⟩] .roe ⟨1, "%".data, [], 1⟩ rfl

theorem mapping_units : ∀ kv ∈ mapping_config, inferUnit kv.1 = expectedUnit kv.2 := by
  decide

theorem locStep_match_some (page : Int) (line : Str) (a : Candidates)
    (kw : Str) (f : SchemaField) (v : ℚ)
    (hcond : isSubstrB kw line = true ∧ getF a f = none)
    (hv : parse_numeric_value (splitCells line) = some v) :
    locStep page line a (kw, f) = setF a f ⟨v, inferUnit kw, stripWs line, page⟩ := by
  unfold locStep
  rw [if_pos hcond, hv]

theorem locStep_unit (page : Int) (line : Str) (a : Candidates)
    (kv : Str × SchemaField) (hkv : kv ∈ mapping_config)
    (ha : ∀ f c, getF a f = some c → c.unit = expectedUnit f) :
    ∀ f c, getF (locStep page line a kv) f = some c → c.unit = expectedUnit f := by
  intro f c h
  unfold locStep at h
  split at h
  · rename_i hcond
    rcases hm : parse_numeric_value (splitCells line) with _ | v
    · rw [hm] at h
      exact ha f c h
    · rw [hm] at h
      rw [getF_setF] at h
      by_cases hf : f = kv.2
      · rw [if_pos hf] at h
        injection h with h
        subst h
        subst hf
        exact mapping_units kv hkv
      · rw [if_neg hf] at h
        exact ha f c h
  · exact ha f c h

theorem empty_units : ∀ f c, getF emptyCandidates f = some c → c.unit = expectedUnit f := by
  intro f c h
  cases f <;> simp [getF, emptyCandidates] at h

theorem locate_units (files : List TableFile) :
    ∀ f c, getF (locateMetrics files) f = some c → c.unit = expectedUnit f := by
  unfold locateMetrics
  refine foldl_preserves_mem (fun a => ∀ f c, getF a f = some c → c.unit = expectedUnit f)
    scanFile files ?_ emptyCandidates empty_units
  intro a tf _ ha
  unfold scanFile
  refine foldl_preserves_mem (fun a => ∀ f c, getF a f = some c → c.unit = expectedUnit f)
    (fun a l => procLine tf.page l a) tf.lines ?_ a ha
  intro b l _ hb
  unfold procLine
  refine foldl_preserves_mem (fun a => ∀ f c, getF a f = some c → c.unit = expectedUnit f)
    (locStep tf.page l) mapping_config ?_ b hb
  intro d kv hkv hd
  exact locStep_unit tf.page l d kv hkv hd

theorem parse_scenario_c :
    parse_numeric_value (splitCells ("净资产收益率 | 25.5% | ...".data)) = some (25.5 : ℚ) := by
  have ha : parseCell ("净资产收益率".data) = none := by decide
  have hd : pyFloatD ("25.5".data) = some ⟨255, 1⟩ := by decide
  have hb : parseCell ("25.5%".data) = some (25.5 : ℚ) := by
    unfold parseCell
    rw [if_neg (by decide)]
    rw [show pyClean ("25.5%".data) = "25.5".data from by decide]
    rw [pyFloat, hd]
    simp [DecNum.toRat]
    norm_num
  rw [show splitCells ("净资产收益率 | 25.5% | ...".data) =
    ["净资产收益率".data, "25.5%".data, "...".data] from by decide]
  simp [parse_numeric_value, ha, hb]

theorem parse_scenario_b :
    parse_numeric_value (splitCells ("净利润 | (500.00) |".data)) = some (-(500 : ℚ)) := by
  have ha : parseCell ("净利润".data) = none := by decide
  have hd : pyFloatD ("500.00".data) = some ⟨50000, 2⟩ := by decide
  have hb : parseCell ("(500.00)".data) = some (-(500 : ℚ)) := by
    unfold parseCell
    rw [if_pos ⟨by decide, by decide⟩]
    rw [show ((pyClean ("(500.00)".data)).drop 1).dropLast = "500.00".data from by decide]
    rw [pyFloat, hd]
    simp [DecNum.toRat]
    norm_num
  rw [show splitCells ("净利润 | (500.00) |".data) =
    ["净利润".data, "(500.00)".data] from by decide]
  simp [parse_numeric_value, ha, hb]

theorem locate_scenario_c :
    getF (locateMetrics [⟨3, ["净资产收益率 | 25.5% | ...".data]⟩]) .roe =
      some ⟨(25.5 : ℚ), "%".data, stripWs ("净资产收益率 | 25.5% | ...".data), 3⟩ := by
  have hloc : locateMetrics [⟨3, ["净资产收益率 | 25.5% | ...".data]⟩] =
      procLine 3 ("净资产收益率 | 25.5% | ...".data) emptyCandidates := rfl
  rw [hloc]
  unfold procLine mapping_config
  rw [List.foldl_cons, locStep_no_match _ _ _ _ (by decide)]
  rw [List.foldl_cons, locStep_no_match _ _ _ _ (by decide)]
  rw [List.foldl_cons, locStep_no_match _ _ _ _ (by decide)]
  rw [List.foldl_cons, locStep_no_match _ _ _ _ (by decide)]
  rw [List.foldl_cons, locStep_no_match _ _ _ _ (by decide)]
  rw [List.foldl_cons, List.foldl_nil]
  rw [locStep_match_some 3 ("净资产收益率 | 25.5% | ...".data) emptyCandidates
    ("净资产收益率".data) SchemaField.roe (25.5 : ℚ) ⟨by decide, rfl⟩ parse_scenario_c]
  rw [getF_setF, if_pos rfl]
  rw [show inferUnit ("净资产收益率".data) = "%".data from by decide]

theorem locate_scenario_b :
    getF (locateMetrics [⟨2, ["净利润 | (500.00) |".data]⟩]) .net_profit =
      some ⟨-(500 : ℚ), "元".data, stripWs ("净利润 | (500.00) |".data), 2⟩ := by
  have hloc : locateMetrics [⟨2, ["净利润 | (500.00) |".data]⟩] =
      procLine 2 ("净利润 | (500.00) |".data) emptyCandidates := rfl
  rw [hloc]
  unfold procLine mapping_config
  rw [List.foldl_cons, locStep_no_match _ _ _ _ (by decide)]
  rw [List.foldl_cons, locStep_no_match _ _ _ _ (by decide)]
  rw [List.foldl_cons, locStep_match_some 2 ("净利润 | (500.00) |".data) emptyCandidates
    ("净利润".data) SchemaField.net_profit (-(500 : ℚ)) ⟨by decide, rfl⟩ parse_scenario_b]
  rw [List.foldl_cons, locStep_no_match _ _ _ _ (by decide)]
  rw [List.foldl_cons, locStep_no_match _ _ _ _ (by decide)]
  rw [List.foldl_cons, locStep_no_match _ _ _ _ (by decide)]
  rw [List.foldl_nil]
  rw [getF_setF, if_pos rfl]
  rw [show inferUnit ("净利润".data) = "元".data from by decide]

/-- C8: unit inference. A candidate's unit is `"%"` exactly when its matched
keyword contains `"率"` or `"ROE"`, and `"元"` otherwise; consequently every
candidate the locator records for a margin/roe field carries `"%"` and every
revenue/profit candidate carries `"元"`. The spec's Scenario C line yields
`{value: 25.5, unit: "%"}` for `roe`, and its Scenario B line yields
`{value: -500.00, unit: "元"}` for `net_profit`. -/
theorem c8_unit_inference :
    (∀ kw : Str, inferUnit kw = "%".data ↔
      (isSubstrB "率".data kw || isSubstrB "ROE".data kw) = true) ∧
    (∀ kv ∈ mapping_config, inferUnit kv.1 = expectedUnit kv.2) ∧
    (∀ (files : List TableFile) (f : SchemaField) (c : MetricItem),
      getF (locateMetrics files) f = some c → c.unit = expectedUnit f) ∧
    getF (locateMetrics [⟨3, ["净资产收益率 | 25.5% | ...".data]⟩]) .roe =
      some ⟨(25.5 : ℚ), "%".data, stripWs ("净资产收益率 | 25.5% | ...".data), 3⟩ ∧
    getF (locateMetrics [⟨2, ["净利润 | (500.00) |".data]⟩]) .net_profit =
      some ⟨-(500 : ℚ), "元".data, stripWs ("净利润 | (500.00) |".data), 2⟩ := by
  refine ⟨?_, mapping_units, locate_units, locate_scenario_c, locate_scenario_b⟩
  intro kw
  unfold inferUnit
  by_cases hb : (isSubstrB "率".data kw || isSubstrB "ROE".data kw) = true
  · rw [if_pos hb]
    simp [hb]
  · rw [if_neg hb]
    constructor
    · intro h
      exact absurd h (by decide)
    · intro h
      exact absurd h hb

/-- Witness for C8: the unit of the Scenario C candidate is the one the unit
convention assigns to `roe`. -/
theorem c8_unit_inference_witness :
    (MetricItem.mk (25.5 : ℚ) "%".data
      (stripWs ("净资产收益率 | 25.5% | ...".data)) 3).unit = expectedUnit SchemaField.roe := by
  exact c8_unit_inference.2.2.1 [⟨3, ["净资产收益率 | 25.5% | ...".data]⟩]
    SchemaField.roe _ c8_unit_inference.2.2.2.1

/-! Schema-validator lemmas. -/

theorem mem_allFields (f : SchemaField) : f ∈ allFields := by
  cases f <;> decide

theorem metricFieldError_name (i : ExtractionInput) (g f : SchemaField) (k : ErrKind)
    (h : metricFieldError i g = some (f, k)) : g = f := by
  rcases hfi : fieldInput i g with _ | m
  · simp only [metricFieldError, hfi] at h
    injection h with h
    exact congrArg Prod.fst h
  · simp only [metricFieldError, hfi] at h
    rcases hv : validateMetric g m with k' | x
    · simp only [hv] at h
      injection h with h
      exact congrArg Prod.fst h
    · simp only [hv] at h
      exact Option.noConfusion h

theorem validateMetric_error_invalid (f : SchemaField) (m : MetricInput) (k : ErrKind)
    (h : validateMetric f m = .error k) : k = .invalid := by
  unfold validateMetric at h
  cases hc : coerceFloat (normalizeFor f m).value with
  | some q => rw [hc] at h; cases h
  | none =>
    rw [hc] at h
    injection h with h
    exact h.symm

theorem mem_fieldErrors (i : ExtractionInput) (f : SchemaField) (k : ErrKind) :
    (f, k) ∈ fieldErrors i ↔
      (k = .missing ∧ fieldInput i f = none) ∨
      (k = .invalid ∧ ∃ m, fieldInput i f = some m ∧
        validateMetric f m = .error .invalid) := by
  unfold fieldErrors
  rw [List.mem_filterMap]
  constructor
  · rintro ⟨g, _, hstep⟩
    have hgf := metricFieldError_name i g f k hstep
    subst hgf
    rcases hfi : fieldInput i g with _ | m
    · simp only [metricFieldError, hfi] at hstep
      injection hstep with h
      have hk : ErrKind.missing = k := congrArg Prod.snd h
      exact Or.inl ⟨hk.symm, rfl⟩
    · simp only [metricFieldError, hfi] at hstep
      rcases hv : validateMetric g m with k' | x
      · simp only [hv] at hstep
        injection hstep with h
        have hk : k' = k := congrArg Prod.snd h
        have hk' : k' = .invalid := validateMetric_error_invalid _ _ _ hv
        subst hk
        exact Or.inr ⟨hk', ⟨m, rfl, hk' ▸ hv⟩⟩
      · simp only [hv] at hstep
        exact Option.noConfusion hstep
  · rintro (⟨hk, hfi⟩ | ⟨hk, m, hfi, hv⟩)
    · subst hk
      refine ⟨f, mem_allFields f, ?_⟩
      simp only [metricFieldError, hfi]
    · subst hk
      refine ⟨f, mem_allFields f, ?_⟩
      simp only [metricFieldError, hfi, hv]

theorem metricFieldError_none_some (i : ExtractionInput) (f : SchemaField)
    (h : metricFieldError i f = none) : ∃ x, validateField i f = some x := by
  rcases hfi : fieldInput i f with _ | m
  · simp only [metricFieldError, hfi] at h
    exact Option.noConfusion h
  · simp only [metricFieldError, hfi] at h
    rcases hv : validateMetric f m with k | x
    · simp only [hv] at h
      exact Option.noConfusion h
    · refine ⟨x, ?_⟩
      unfold validateField
      simp [hfi, hv, Except.toOption]

/-- C4: a failed schema construction always carries the per-field error list:
an entry `(f, missing)` exactly when field `f` is absent, `(f, invalid)`
exactly when `f` is supplied but fails coercion, and the list is never empty;
a candidate missing only `roe` fails with exactly `[(roe, missing)]`. -/
theorem c4_schema_validation_errors :
    (∀ (i : ExtractionInput) (es : List (SchemaField × ErrKind)),
      FinancialExtractionSchema_validate i = .error es →
        es ≠ [] ∧ ∀ f k, ((f, k) ∈ es ↔
          (k = .missing ∧ fieldInput i f = none) ∨
          (k = .invalid ∧ ∃ m, fieldInput i f = some m ∧
            validateMetric f m = .error .invalid))) ∧
    FinancialExtractionSchema_validate
      ⟨"X".data, "000000".data, 2024, .FY,
        some ⟨.float 1, "元".data, "c1".data, 1⟩,
        some ⟨.float 2, "元".data, "c2".data, 1⟩,
        some ⟨.float 3, "%".data, "c3".data, 1⟩,
        some ⟨.float 4, "%".data, "c4".data, 1⟩,
        none⟩ = .error [(.roe, .missing)] := by
  constructor
  · intro i es h
    unfold FinancialExtractionSchema_validate at h
    rcases hfe : fieldErrors i with _ | ⟨e0, es'⟩
    · rw [hfe] at h
      have hfe' : allFields.filterMap (metricFieldError i) = [] := hfe
      have hstep := List.filterMap_eq_nil_iff.mp hfe'
      obtain ⟨a1, ha1⟩ := metricFieldError_none_some i .operating_revenue
        (hstep _ (mem_allFields _))
      obtain ⟨a2, ha2⟩ := metricFieldError_none_some i .net_profit
        (hstep _ (mem_allFields _))
      obtain ⟨a3, ha3⟩ := metricFieldError_none_some i .gross_margin
        (hstep _ (mem_allFields _))
      obtain ⟨a4, ha4⟩ := metricFieldError_none_some i .profit_margin
        (hstep _ (mem_allFields _))
      obtain ⟨a5, ha5⟩ := metricFieldError_none_some i .roe
        (hstep _ (mem_allFields _))
      rw [ha1, ha2, ha3, ha4, ha5] at h
      cases h
    · rw [hfe] at h
      injection h with h
      subst h
      refine ⟨by simp, ?_⟩
      intro f k
      rw [← hfe]
      exact mem_fieldErrors i f k
  · rfl

/-- Witness for C4 at the roe-less candidate: the reported error list is
non-empty and names `roe` as missing. -/
theorem c4_schema_validation_errors_witness :
    ([((SchemaField.roe : SchemaField), (ErrKind.missing : ErrKind))] ≠ []) ∧
    (((SchemaField.roe, ErrKind.missing) ∈
        [((SchemaField.roe : SchemaField), (ErrKind.missing : ErrKind))]) ↔
      (ErrKind.missing = ErrKind.missing ∧
        fieldInput
          ⟨"X".data, "000000".data, 2024, .FY,
            some ⟨.float 1, "元".data, "c1".data, 1⟩,
            some ⟨.float 2, "元".data, "c2".data, 1⟩,
            some ⟨.float 3, "%".data, "c3".data, 1⟩,
            some ⟨.float 4, "%".data, "c4".data, 1⟩,
            none⟩ SchemaField.roe = none) ∨
      (ErrKind.missing = ErrKind.invalid ∧ ∃ m,
        fieldInput
          ⟨"X".data, "000000".data, 2024, .FY,
            some ⟨.float 1, "元".data, "c1".data, 1⟩,
            some ⟨.float 2, "元".data, "c2".data, 1⟩,
            some ⟨.float 3, "%".data, "c3".data, 1⟩,
            some ⟨.float 4, "%".data, "c4".data, 1⟩,
            none⟩ SchemaField.roe = some m ∧
        validateMetric SchemaField.roe m = .error .invalid)) := by
  have h := c4_schema_validation_errors.1 _ _ c4_schema_validation_errors.2
  exact ⟨h.1, h.2 SchemaField.roe ErrKind.missing⟩

/-- C5: the percentage pre-validator. A percent-marked string value on a
normalized field is stripped, parsed, and its unit forced to `"%"`, before
type coercion; it applies to `gross_margin`, `profit_margin` and `roe` only,
so the same percent-string dict validates as `roe` but fails coercion as
`net_profit`. -/
theorem c5_percentage_normalization :
    (∀ (m : MetricInput) (s : Str) (q : ℚ), m.value = .str s → '%' ∈ s →
      pyFloat (removeChar '%' s) = some q →
      handle_percentage_strings m = { m with value := .float q, unit := "%".data }) ∧
    (pctNormalized .gross_margin = true ∧ pctNormalized .profit_margin = true ∧
      pctNormalized .roe = true ∧ pctNormalized .operating_revenue = false ∧
      pctNormalized .net_profit = false) ∧
    validateMetric .roe ⟨.str "25.5%".data, "元".data, "ctx".data, 3⟩ =
      .ok ⟨(25.5 : ℚ), "%".data, "ctx".data, 3⟩ ∧
    validateMetric .net_profit ⟨.str "25.5%".data, "元".data, "ctx".data, 3⟩ =
      .error .invalid := by
  refine ⟨?_, ⟨rfl, rfl, rfl, rfl, rfl⟩, ?_, ?_⟩
  · intro m s q hv hpc hq
    obtain ⟨v, u, cx, p⟩ := m
    simp only at hv
    subst hv
    simp only [handle_percentage_strings]
    rw [if_pos hpc, hq]
  · have hd : pyFloatD ("25.5".data) = some ⟨255, 1⟩ := by decide
    have hf : pyFloat (removeChar '%' ("25.5%".data)) = some (DecNum.toRat ⟨255, 1⟩) := by
      rw [show removeChar '%' ("25.5%".data) = "25.5".data from by decide, pyFloat, hd]
      rfl
    have hh : handle_percentage_strings ⟨.str "25.5%".data, "元".data, "ctx".data, 3⟩ =
        ⟨.float (DecNum.toRat ⟨255, 1⟩), "%".data, "ctx".data, 3⟩ := by
      simp only [handle_percentage_strings]
      rw [if_pos (by decide), hf]
    have hn : normalizeFor .roe ⟨.str "25.5%".data, "元".data, "ctx".data, 3⟩ =
        ⟨.float (DecNum.toRat ⟨255, 1⟩), "%".data, "ctx".data, 3⟩ := by
      unfold normalizeFor
      exact hh
    unfold validateMetric
    rw [hn]
    simp only [coerceFloat]
    have : DecNum.toRat ⟨255, 1⟩ = (25.5 : ℚ) := by
      simp [DecNum.toRat]
      norm_num
    rw [this]
  · rfl

/-- Witness for C5: the general percent rule applied at the concrete
Scenario C string. -/
theorem c5_percentage_normalization_witness :
    handle_percentage_strings ⟨.str "25.5%".data, "元".data, "ctx".data, 3⟩ =
      ⟨.float (25.5 : ℚ), "%".data, "ctx".data, 3⟩ := by
  have hq : pyFloat (removeChar '%' ("25.5%".data)) = some (25.5 : ℚ) := by
    rw [show removeChar '%' ("25.5%".data) = "25.5".data from by decide, pyFloat,
      show pyFloatD ("25.5".data) = some ⟨255, 1⟩ from by decide]
    simp [DecNum.toRat]
    norm_num
  exact c5_percentage_normalization.1 ⟨.str "25.5%".data, "元".data, "ctx".data, 3⟩
    ("25.5%".data) (25.5 : ℚ) rfl (by decide) hq

/-! Decomposer lemmas. -/

theorem extractImagesOnPage_error (pIdx : Nat) (p : List (Except PyErr ImageData))
    (h : ∃ x ∈ p, ∃ e, x = .error e) :
    ∀ iIdx, ∃ err, extractImagesOnPage pIdx iIdx p = .error err := by
  induction p with
  | nil =>
    rcases h with ⟨x, hx, _⟩
    exact absurd hx (by simp)
  | cons x rest ih =>
    intro iIdx
    cases x with
    | error e => exact ⟨e, rfl⟩
    | ok img =>
      rcases h with ⟨y, hy, e, hye⟩
      rcases List.mem_cons.mp hy with rfl | hy
      · exact absurd hye (by simp)
      · obtain ⟨err, herr⟩ := ih ⟨y, hy, e, hye⟩ (iIdx + 1)
        refine ⟨err, ?_⟩
        simp only [extractImagesOnPage, herr, Except.map]

theorem extract_images_error (pages : List (List (Except PyErr ImageData)))
    (h : ∃ p ∈ pages, ∃ x ∈ p, ∃ e, x = .error e) :
    ∀ pIdx, ∃ err, extract_images pIdx pages = .error err := by
  induction pages with
  | nil =>
    rcases h with ⟨p, hp, _⟩
    exact absurd hp (by simp)
  | cons p ps ih =>
    intro pIdx
    rcases h with ⟨p', hp', hbad⟩
    rcases List.mem_cons.mp hp' with rfl | hp'
    · obtain ⟨err, herr⟩ := extractImagesOnPage_error pIdx p' hbad 0
      refine ⟨err, ?_⟩
      simp only [extract_images, herr]
    · rcases hpage : extractImagesOnPage pIdx 0 p with e | fs
      · exact ⟨e, by simp only [extract_images, hpage]⟩
      · obtain ⟨err, herr⟩ := ih ⟨p', hp', hbad⟩ (pIdx + 1)
        exact ⟨err, by simp only [extract_images, hpage, herr, Except.map]⟩

/-- C7 counterexample: the code installs no handler around image extraction,
so a failure on a single image of page 1 aborts the whole run — page 2's
perfectly good image is never processed and `process_pdf` fails outright,
contrary to the claimed logged-and-skipped partial-failure semantics. -/
theorem c7_partial_failure_counterexample :
    extract_images 0
      [[.error (.extractError "bad".data)], [.ok ⟨"II".data, "png".data⟩]] =
      .error (.extractError "bad".data) ∧
    process_pdf
      ⟨["t1".data, "t2".data],
        [[.error (.extractError "bad".data)], [.ok ⟨"II".data, "png".data⟩]]⟩ [] =
      .error (.extractError "bad".data) := ⟨rfl, rfl⟩

/-- C7 amended: if image extraction fails for any page (or any image on a
page), the exception propagates out of `_extract_images`, and `process_pdf`,
having no handler, fails with that same error — decomposition of the
remaining pages does not complete. -/
theorem c7_image_failure_aborts :
    (∀ (pIdx : Nat) (pages : List (List (Except PyErr ImageData))),
      (∃ p ∈ pages, ∃ x ∈ p, ∃ e, x = .error e) →
      ∃ err, extract_images pIdx pages = .error err) ∧
    (∀ (doc : PdfDoc) (tables : List (List (List Str))) (err : PyErr),
      extract_images 0 doc.pageImages = .error err →
      process_pdf doc tables = .error err) := by
  constructor
  · intro pIdx pages h
    exact extract_images_error pages h pIdx
  · intro doc tables err h
    unfold process_pdf
    rw [h]

/-- Witness for C7's amended theorem at the counterexample document. -/
theorem c7_image_failure_aborts_witness :
    (∃ err, extract_images 0
      [[.error (.extractError "bad".data)], [.ok ⟨"II".data, "png".data⟩]] =
        .error err) ∧
    process_pdf
      ⟨["t1".data, "t2".data],
        [[.error (.extractError "bad".data)], [.ok ⟨"II".data, "png".data⟩]]⟩ [] =
      .error (.extractError "bad".data) := by
  constructor
  · exact c7_image_failure_aborts.1 0 _
      ⟨[.error (.extractError "bad".data)], by simp, .error (.extractError "bad".data),
        by simp, .extractError "bad".data, rfl⟩
  · exact c7_image_failure_aborts.2
      ⟨["t1".data, "t2".data],
        [[.error (.extractError "bad".data)], [.ok ⟨"II".data, "png".data⟩]]⟩ []
      (.extractError "bad".data) rfl

/-- C1: neither `ReportPeriod` nor `json` is a module global or builtin of
`general_pdf_parser.py`, so for every input `map_tables_to_schema` raises
`NameError: ReportPeriod` while building `extracted_data`, before any table
file is scanned or validated, and never returns a JSON string. -/
theorem c1_map_tables_name_error :
    resolvesName "ReportPeriod".data = false ∧
    resolvesName "json".data = false ∧
    ∀ (pdf_path : Str) (tableFiles : List TableFile),
      map_tables_to_schema pdf_path tableFiles =
        .error (.nameError "ReportPeriod".data) := by
  refine ⟨by decide, by decide, ?_⟩
  intro p tfs
  unfold map_tables_to_schema
  rw [if_neg (by decide)]
